import Mathlib

/-!
Verification development for the prompt-construction core of the repository
(`agent/prompts/prompt_constructor.py` and `agent/prompts/raw/react.py`).

Modelling conventions:
* Python strings are embedded as `List Char` (`Str`); `lit` converts a Lean
  string literal to that representation.
* All token quantities are measured in quarter-token units: the code stores
  per-message costs as the float `len(content)/4` and sums of such floats are
  exact multiples of 1/4, so scaling every quantity by 4 keeps the arithmetic
  in `ℤ` while preserving every comparison and sum exactly.  Generation-config
  limits (`max_tokens`, `context_length`), which the code keeps as integers,
  are therefore multiplied by 4 where they enter a formula.
* A Python statement that can raise is embedded as an `Option`/`Except`
  returning function, `none`/`.error` marking the raised exception.
-/

abbrev Str := List Char

def lit (s : String) : Str := s.data

/-- Python's substring test `pat in s`: does `pat` occur contiguously in `s`? -/
def inStr (pat : Str) : Str → Bool
  | [] => pat.isPrefixOf []
  | c :: rest => pat.isPrefixOf (c :: rest) || inStr pat rest

/-- Fuel-driven worker for `str_replace`; the fuel only bounds the recursion
depth and `str_replace` always supplies enough (`s.length`), as each step
consumes at least one character of `s`. -/
def replAuxF (pat rep : Str) : ℕ → Str → Str
  | _, [] => []
  | 0, s => s
  | fuel + 1, c :: rest =>
    if pat.isPrefixOf (c :: rest) then
      rep ++ replAuxF pat rep fuel (rest.drop (pat.length - 1))
    else
      c :: replAuxF pat rep fuel rest

/-- Python's `s.replace(pat, rep)`: replace every non-overlapping occurrence of
`pat`, scanning left to right.  For the empty pattern Python inserts `rep`
before every character and at the end. -/
def str_replace (s pat rep : Str) : Str :=
  match pat with
  | [] => rep ++ (s.map (fun c => c :: rep)).flatten
  | _ :: _ => replAuxF pat rep s.length s

/-- Embeds `PromptConstructor.map_url_to_real`: iterate over the mapping table
in order and, for every entry whose key occurs in the current url, replace all
its occurrences.  The table (`URL_MAPPINGS`, a constant dict of local/real
pairs loaded from the environment package) is passed as a parameter in
iteration order. -/
def map_url_to_real (table : List (Str × Str)) (url : Str) : Str :=
  table.foldl (fun u ij => if inStr ij.1 u then str_replace u ij.1 ij.2 else u) url

/-- Embeds `PromptConstructor.map_url_to_local`: same loop with the pair
directions swapped. -/
def map_url_to_local (table : List (Str × Str)) (url : Str) : Str :=
  table.foldl (fun u ij => if inStr ij.2 u then str_replace u ij.2 ij.1 else u) url

/-- Modelled from the spec (claim C4 refinement): the spec describes each
mapping direction as first-match substring replacement in table order, the
first matching entry winning with no further entries applied.  This definition
follows the spec's words and is compared against `map_url_to_real` above. -/
def map_url_to_real_specFirstMatch (table : List (Str × Str)) (url : Str) : Str :=
  match table.find? (fun ij => inStr ij.1 url) with
  | some ij => str_replace url ij.1 ij.2
  | none => url

/-- Role-tagged chat message, the `{"role": ..., "content": ...}` dict of the
source. -/
structure Message where
  role : Str
  content : Str
deriving DecidableEq, Repr

/-- Mutable state of `ReactPromptConstructor` that the transcript-handling
methods read and write (quarter-token units for all token quantities). -/
structure ReactState where
  sys_tokens : ℤ
  intent_tokens : ℤ
  messages : List Message
  messages_tokens_list : List ℤ
  messages_token_sum : ℤ
  msg_start_idx : ℕ
deriving DecidableEq, Repr

/-- Generation-config slice used by the truncation loop, in tokens (the code's
`gen_config["max_tokens"]` and `gen_config["context_length"]` integers). -/
structure GenConfig where
  max_tokens : ℤ
  context_length : ℤ
deriving DecidableEq, Repr

/-- Embeds `ReactPromptConstructor.add_message`: append the message, record its
cost estimate `len(msg)/4` (one quarter-unit per character), add it to the
running sum. -/
def add_message (s : ReactState) (msg : Str) (role : Str) : ReactState :=
  { s with
      messages := s.messages ++ [{ role := role, content := msg }],
      messages_tokens_list := s.messages_tokens_list ++ [(msg.length : ℤ)],
      messages_token_sum := s.messages_token_sum + (msg.length : ℤ) }

/-- Embeds `ReactPromptConstructor.remove_obs`.  `self.messages[-1]` raises
`IndexError` on an empty list (outer `none`); the `.pop()` on the tokens list
likewise raises when that list is empty.  The function body has no `return`
statement, so the Python return value is `None`, modelled by the `Option Bool`
component always being `none`. -/
def remove_obs (s : ReactState) : Option (ReactState × Option Bool) :=
  match s.messages.getLast? with
  | none => none
  | some prev_msg =>
    if (prev_msg.role == lit "user") && (lit "OBSERVATION:").isPrefixOf prev_msg.content then
      if s.messages_tokens_list.isEmpty then none
      else
        some ({ s with
                  messages := s.messages.dropLast,
                  messages_tokens_list := s.messages_tokens_list.dropLast,
                  messages_token_sum := s.messages_token_sum - (prev_msg.content.length : ℤ) },
              none)
    else some (s, none)

/-- Total `tot_tokens` recomputed on every iteration of the truncation loop:
`sys_tokens + intent_tokens + messages_token_sum + max_tokens` (the config
value scaled to quarter-units). -/
def totalTokens (cfg : GenConfig) (s : ReactState) : ℤ :=
  s.sys_tokens + s.intent_tokens + s.messages_token_sum + 4 * cfg.max_tokens

/-- Worker for the `while` loop of `get_limited_message_history`.  The loop
reads `messages_tokens_list[msg_start_idx]` and increments the index; since
the list itself is never mutated by the loop, the remaining suffix
`messages_tokens_list.drop msg_start_idx` is passed explicitly, making the
recursion structural.  An out-of-range index (Python `IndexError`, reachable
because the loop has no bound on `msg_start_idx`) corresponds to the suffix
being empty, yielding `none`. -/
def truncGo (cfg : GenConfig) : List ℤ → ReactState → Option ReactState
  | [], s =>
    if 4 * cfg.context_length < totalTokens cfg s then none else some s
  | c :: rest, s =>
    if 4 * cfg.context_length < totalTokens cfg s then
      truncGo cfg rest
        { s with
            messages_token_sum := s.messages_token_sum - c,
            msg_start_idx := s.msg_start_idx + 1 }
    else some s

/-- Embeds `ReactPromptConstructor.get_limited_message_history`: run the
truncation loop, then return the live slice `messages[msg_start_idx:]`
(together with the mutated state). -/
def get_limited_message_history (cfg : GenConfig) (s : ReactState) :
    Option (ReactState × List Message) :=
  match truncGo cfg (s.messages_tokens_list.drop s.msg_start_idx) s with
  | none => none
  | some s2 => some (s2, s2.messages.drop s2.msg_start_idx)

/-- Exceptions raised by `ReactPromptConstructor.get_lm_api_input`. -/
inductive PyExc where
  | unboundLocalError
  | valueError
  | notImplementedError
deriving DecidableEq, Repr

/-- Embeds `ReactPromptConstructor.get_lm_api_input`.  In chat mode the method
returns the single-element list `[{"role": "user", "content": current}]`.  In
completion mode the first statement executed is `message += ...`, which reads
the local variable `message` before any assignment to it, so the call raises
`UnboundLocalError`.  Other modes raise `ValueError`; providers without
"openai" in their name raise `NotImplementedError`. -/
def react_get_lm_api_input (provider mode current : Str) :
    Except PyExc (List Message) :=
  if inStr (lit "openai") provider then
    if mode == lit "chat" then
      .ok [{ role := lit "user", content := current }]
    else if mode == lit "completion" then
      .error .unboundLocalError
    else
      .error .valueError
  else
    .error .notImplementedError

/-- Lazy scan for the closing delimiter, modelling how the regex engine
extends `(.*?)` after the opening delimiter has been matched: at each point it
first tries to match the closing delimiter `d`; otherwise it consumes one
character, failing on a newline because `.` does not match `'\n'` (the pattern
is compiled without DOTALL). -/
def closeScan (d : Str) : Str → Option Str
  | [] => if d.isPrefixOf [] then some [] else none
  | c :: rest =>
    if d.isPrefixOf (c :: rest) then some []
    else if c = '\n' then none
    else (closeScan d rest).map (fun cs => c :: cs)

/-- Embeds `re.search(rf"{action_splitter}(.*?){action_splitter}", response)`
for a delimiter with no regex metacharacters (the configured splitter is the
single backtick): try a full match at each start position from the left;
a match at a position requires the delimiter there followed by a lazily
minimal newline-free stretch ending at another delimiter.  Returns
`match.group(1)`. -/
def searchScan (d : Str) : Str → Option Str
  | [] => if d.isPrefixOf [] then closeScan d (List.drop d.length []) else none
  | c :: rest =>
    match (if d.isPrefixOf (c :: rest) then closeScan d ((c :: rest).drop d.length) else none) with
    | some content => some content
    | none => searchScan d rest

/-- Count of delimiter occurrences in a string (all start positions at which
`d` matches, used to state claim C3's "fewer than two delimiter occurrences
exist"). -/
def occCount (d : Str) : Str → ℕ
  | [] => if d.isPrefixOf [] then 1 else 0
  | c :: rest => (if d.isPrefixOf (c :: rest) then 1 else 0) + occCount d rest

/-- Embeds `ReactPromptConstructor._extract_action`: `none` models the raised
`ActionParsingError`. -/
def react_extract_action_raw (action_splitter response : Str) : Option Str :=
  searchScan action_splitter response

/-- Embeds `PromptConstructor.extract_action`: `_extract_action` followed by
`map_url_to_local` on the extracted text. -/
def extract_action (table : List (Str × Str)) (action_splitter response : Str) : Option Str :=
  match react_extract_action_raw action_splitter response with
  | some action => some (map_url_to_local table action)
  | none => none

/-- Errors raised by Python `str.format`. -/
inductive FmtError where
  | keyError (name : Str)
  | valueError
deriving DecidableEq, Repr

/-- Keyword-argument lookup for `str.format`. -/
def lookupKw (kwargs : List (Str × Str)) (name : Str) : Option Str :=
  match kwargs.find? (fun kv => kv.1 == name) with
  | some kv => some kv.2
  | none => none

/-- Reads a replacement-field name up to the closing brace; `none` models the
`ValueError` Python raises on a lone `'{'` with no closing brace. -/
def readField : Str → Str → Option (Str × Str)
  | _, [] => none
  | acc, c :: rest =>
    if c = '\x7d' then some (acc.reverse, rest) else readField (c :: acc) rest

/-- Fuel-driven worker for `pyFormat`; each step consumes at least one
character, so the initial fuel `template.length` supplied by `pyFormat` always
suffices. -/
def pyFormatF (kwargs : List (Str × Str)) : ℕ → Str → Except FmtError Str
  | _, [] => .ok []
  | 0, _ => .error .valueError
  | fuel + 1, '\x7b' :: '\x7b' :: rest =>
    (pyFormatF kwargs fuel rest).map (fun t => '\x7b' :: t)
  | fuel + 1, '\x7b' :: rest =>
    match readField [] rest with
    | none => .error .valueError
    | some (name, rest2) =>
      match lookupKw kwargs name with
      | none => .error (.keyError name)
      | some v => (pyFormatF kwargs fuel rest2).map (fun t => v ++ t)
  | fuel + 1, '\x7d' :: '\x7d' :: rest =>
    (pyFormatF kwargs fuel rest).map (fun t => '\x7d' :: t)
  | _, '\x7d' :: _ => .error .valueError
  | fuel + 1, c :: rest => (pyFormatF kwargs fuel rest).map (fun t => c :: t)

/-- Embeds Python `template.format(**kwargs)` for templates whose replacement
fields are plain keyword names (as the repository's templates are): simple
simultaneous substitution with `{{`/`}}` escapes; a field name absent from the
kwargs raises `KeyError`, stray braces raise `ValueError`.  Conversion and
format-spec syntax (`!r`, `:>8`, ...) is not used by the repository and not
modelled. -/
def pyFormat (kwargs : List (Str × Str)) (template : Str) : Except FmtError Str :=
  pyFormatF kwargs template.length template

/-- Embeds the `error_msg` selection of `ReactPromptConstructor.construct_thought`:
pass the previous-action text through when it carries one of the two
recognized error-report prefixes (the first misspelled as in the source),
otherwise substitute "None". -/
def errorMsgOf (previous_action_str : Str) : Str :=
  if (lit "Attempt to perfom").isPrefixOf previous_action_str
      || (lit "The previous prediction you issued was").isPrefixOf previous_action_str
  then previous_action_str
  else lit "None"

/-- Embeds the formatting of the current turn in `construct_thought`:
`template.format(url=map_url_to_real(url), previous_action=map_url_to_real(error_msg))`. -/
def constructThoughtCurrent (table : List (Str × Str)) (template url previous_action_str : Str) :
    Except FmtError Str :=
  pyFormat
    [(lit "url", map_url_to_real table url),
     (lit "previous_action", map_url_to_real table (errorMsgOf previous_action_str))]
    template

/-- Embeds the assertion `all([f"{{k}}" not in current for k in keywords])` of
`construct_thought`.  In an f-string `{{` and `}}` are brace escapes, so
`f"{{k}}"` is the three-character literal `"{k}"` — the loop variable `k` is
never interpolated, which is why the lambda below ignores its argument. -/
def keywordAssert (keywords : List Str) (current : Str) : Bool :=
  keywords.all (fun k => !(inStr (lit "{k}") current))

/-- Template of `agent/prompts/raw/react.py`. -/
def reactTemplate : Str := lit "\nERROR MESSAGE: {previous_action}\nURL: {url}\n"

/-- Keyword list of `agent/prompts/raw/react.py`'s `meta_data`. -/
def reactKeywords : List Str :=
  [lit "url", lit "objective", lit "observation", lit "previous_action"]

/-- Action splitter configured in `agent/prompts/raw/react.py`: a single
backtick. -/
def reactActionSplitter : Str := lit "\x60"

/-- Transcript invariant, first half (claim C7): the cost list and the message
list are index-aligned — entry `i` of `messages_tokens_list` is the recorded
estimate of message `i` (in particular the lists have the same length). -/
def costAligned (s : ReactState) : Prop :=
  s.messages_tokens_list = s.messages.map (fun m => (m.content.length : ℤ))

/-- Transcript invariant, second half (claim C7): the running token sum equals
the sum of the recorded costs from the cursor onward. -/
def sumMatches (s : ReactState) : Prop :=
  s.messages_token_sum = (s.messages_tokens_list.drop s.msg_start_idx).sum

/-- Transcript invariant of claim C7. -/
def transcriptInv (s : ReactState) : Prop := costAligned s ∧ sumMatches s

instance (s : ReactState) : Decidable (costAligned s) :=
  inferInstanceAs (Decidable (_ = _))

instance (s : ReactState) : Decidable (sumMatches s) :=
  inferInstanceAs (Decidable (_ = _))

instance (s : ReactState) : Decidable (transcriptInv s) :=
  inferInstanceAs (Decidable (_ ∧ _))

/-! ## Concrete inputs used by witnesses and counterexamples -/

/-- Failing input for claim C1: system prompt of 100 tokens (400 quarters), one
live message of cost 0.5 tokens, reply reserve 5 tokens, ceiling 50 tokens.
Even after the only message is dropped the total exceeds the ceiling, and the
next loop iteration indexes one past the end of the cost list. -/
def exC1State : ReactState :=
  { sys_tokens := 400, intent_tokens := 0,
    messages := [{ role := lit "user", content := lit "hi" }],
    messages_tokens_list := [2], messages_token_sum := 2, msg_start_idx := 0 }

/-- Config for claim C1's failing input. -/
def exC1Cfg : GenConfig := { max_tokens := 5, context_length := 50 }

/-- Transcript for the spec's truncation example (claim C2): three turns of
costs 10, 20, 30 tokens (40, 80, 120 quarter-units), fixed overhead 5 tokens
(`sys_tokens` 20 quarters, no intent). -/
def exC2State : ReactState :=
  { sys_tokens := 20, intent_tokens := 0,
    messages := [{ role := lit "user", content := lit "turn1" },
                 { role := lit "user", content := lit "turn2" },
                 { role := lit "user", content := lit "turn3" }],
    messages_tokens_list := [40, 80, 120], messages_token_sum := 240, msg_start_idx := 0 }

/-- Config for claim C2's example: reply reserve 5 tokens, ceiling 40 tokens. -/
def exC2Cfg : GenConfig := { max_tokens := 5, context_length := 40 }

/-- Expected post-truncation state for claim C2's example: the first two turns
dropped, running sum 30 tokens (120 quarters). -/
def exC2After : ReactState :=
  { sys_tokens := 20, intent_tokens := 0,
    messages := [{ role := lit "user", content := lit "turn1" },
                 { role := lit "user", content := lit "turn2" },
                 { role := lit "user", content := lit "turn3" }],
    messages_tokens_list := [40, 80, 120], messages_token_sum := 120, msg_start_idx := 2 }

/-- State for claim C5's counterexample: a single live observation message. -/
def exC5State : ReactState :=
  { sys_tokens := 0, intent_tokens := 0,
    messages := [{ role := lit "user", content := lit "OBSERVATION: x" }],
    messages_tokens_list := [14], messages_token_sum := 14, msg_start_idx := 0 }

/-- State after `remove_obs` on `exC5State`: the observation was removed. -/
def exC5After : ReactState :=
  { sys_tokens := 0, intent_tokens := 0, messages := [],
    messages_tokens_list := [], messages_token_sum := 0, msg_start_idx := 0 }

/-- Fresh constructor state for claim C7's counterexample (empty transcript,
zero fixed overhead). -/
def exC7Start : ReactState :=
  { sys_tokens := 0, intent_tokens := 0, messages := [],
    messages_tokens_list := [], messages_token_sum := 0, msg_start_idx := 0 }

/-- Config for claim C7's counterexample: zero reply reserve and zero ceiling,
so truncation drops every message. -/
def exC7Cfg : GenConfig := { max_tokens := 0, context_length := 0 }

/-- Transcript after one `construct_thought`-style step: the formatted current
turn followed by the tagged observation, both appended via `add_message`. -/
def exC7S1 : ReactState :=
  add_message (add_message exC7Start (lit "go") (lit "user"))
    (lit "OBSERVATION: \nx") (lit "user")

/-- State after truncation dropped both messages of `exC7S1`: cursor 2, live
sum 0; the transcript invariant still holds here. -/
def exC7S2 : ReactState :=
  { sys_tokens := 0, intent_tokens := 0,
    messages := [{ role := lit "user", content := lit "go" },
                 { role := lit "user", content := lit "OBSERVATION: \nx" }],
    messages_tokens_list := [2, 15], messages_token_sum := 0, msg_start_idx := 2 }

/-- State after `remove_obs` on `exC7S2`: the observation behind the cursor was
removed and its cost subtracted from a live sum that no longer contained it,
leaving the running sum at -15 while the live cost slice sums to 0. -/
def exC7S3 : ReactState :=
  { sys_tokens := 0, intent_tokens := 0,
    messages := [{ role := lit "user", content := lit "go" }],
    messages_tokens_list := [2], messages_token_sum := -15, msg_start_idx := 2 }

/-! ## Helper lemmas -/

theorem truncGo_some_spec (cfg : GenConfig) :
    ∀ (rem : List ℤ) (s s2 : ReactState),
      rem = s.messages_tokens_list.drop s.msg_start_idx →
      s.messages_token_sum = rem.sum →
      truncGo cfg rem s = some s2 →
      s2.sys_tokens = s.sys_tokens ∧ s2.intent_tokens = s.intent_tokens ∧
      s2.messages = s.messages ∧ s2.messages_tokens_list = s.messages_tokens_list ∧
      s.msg_start_idx ≤ s2.msg_start_idx ∧
      s2.msg_start_idx ≤ s.msg_start_idx + rem.length ∧
      s2.messages_token_sum = (s.messages_tokens_list.drop s2.msg_start_idx).sum ∧
      totalTokens cfg s2 ≤ 4 * cfg.context_length ∧
      (∀ j, s.msg_start_idx ≤ j → j < s2.msg_start_idx →
        4 * cfg.context_length < s.sys_tokens + s.intent_tokens +
          (s.messages_tokens_list.drop j).sum + 4 * cfg.max_tokens) := by
  intro rem
  induction rem with
  | nil =>
    intro s s2 hrem hsum htr
    simp only [truncGo] at htr
    split at htr
    · simp at htr
    · rename_i hle
      obtain rfl : s = s2 := by simpa using htr
      refine ⟨rfl, rfl, rfl, rfl, Nat.le_refl _, by simp, ?_, not_lt.mp hle, ?_⟩
      · rw [← hrem, hsum]
      · intro j h1 h2; omega
  | cons c rest ih =>
    intro s s2 hrem hsum htr
    simp only [truncGo] at htr
    split at htr
    · rename_i hgt
      have hdrop : s.messages_tokens_list.drop (s.msg_start_idx + 1) = rest := by
        rw [← List.tail_drop, ← hrem]
        rfl
      have H := ih
        { s with messages_token_sum := s.messages_token_sum - c,
                 msg_start_idx := s.msg_start_idx + 1 } s2
        (by simpa using hdrop.symm)
        (by simp [hsum]) htr
      obtain ⟨h1, h2, h3, h4, h5, h6, h7, h8, h9⟩ := H
      simp only at h1 h2 h3 h4 h5 h6 h7 h9
      refine ⟨h1, h2, h3, h4, by omega, by simp; omega, h7, h8, ?_⟩
      intro j hj1 hj2
      rcases Nat.eq_or_lt_of_le hj1 with heq | hlt
      · rw [← heq, ← hrem]
        simpa [totalTokens, hsum] using hgt
      · exact h9 j hlt hj2
    · rename_i hle
      obtain rfl : s = s2 := by simpa using htr
      refine ⟨rfl, rfl, rfl, rfl, Nat.le_refl _, by simp, ?_, not_lt.mp hle, ?_⟩
      · rw [← hrem, hsum]
      · intro j h1 h2; omega

/-! ## Claim theorems -/

/-- Claim C1 (code_bug): the claim states that truncation never raises and, in
the state where the cursor has passed every live message while the total still
exceeds the ceiling, stops trimming and returns the empty live slice.  The
code's `while` loop has no bound on `msg_start_idx`: evaluated at the concrete
failing input (fixed overhead alone above the ceiling), the loop drops the
only message and then indexes past the end of `messages_tokens_list`, raising
`IndexError` (modelled by `none`) instead of returning the empty slice. -/
theorem C1_truncation_raises_at_failing_input :
    get_limited_message_history exC1Cfg exC1State = none := by decide

/-- Claim C10 (confirmed): when the message list is empty, `remove_obs`
unconditionally evaluates `self.messages[-1]` and raises `IndexError`
(modelled by `none`) instead of behaving as a no-op, whatever the other state
components are. -/
theorem C10_remove_obs_empty_raises :
    ∀ (a b : ℤ) (tl : List ℤ) (c : ℤ) (i : ℕ),
      remove_obs { sys_tokens := a, intent_tokens := b, messages := [],
                   messages_tokens_list := tl, messages_token_sum := c,
                   msg_start_idx := i } = none := by
  intro a b tl c i
  rfl

/-- Claim C9 (confirmed): in the history-carrying React constructor,
`get_lm_api_input` with an openai provider and mode "completion" always raises
(`message += ...` reads the payload variable before any assignment, an
`UnboundLocalError`), and a successful payload is only ever produced in chat
mode. -/
theorem C9_completion_mode_always_raises :
    ∀ (provider current : Str), inStr (lit "openai") provider = true →
      react_get_lm_api_input provider (lit "completion") current =
        .error .unboundLocalError
      ∧ ∀ (mode current2 : Str) (out : List Message),
          react_get_lm_api_input provider mode current2 = .ok out →
          mode = lit "chat" := by
  intro provider current hop
  constructor
  · simp [react_get_lm_api_input, hop]
    decide
  · intro mode current2 out hok
    simp only [react_get_lm_api_input, hop, if_true] at hok
    split at hok
    · rename_i h
      first
      | exact h
      | exact eq_of_beq h
    · split at hok <;> simp_all

/-- Witness for claim C9's theorem at provider "openai". -/
theorem C9_completion_mode_always_raises_witness :
    react_get_lm_api_input (lit "openai") (lit "completion") (lit "x") =
      .error .unboundLocalError :=
  (C9_completion_mode_always_raises (lit "openai") (lit "x") (by decide)).1

theorem list_getLast?_split {α : Type} (l : List α) :
    ∀ (a : α), l.getLast? = some a → ∃ t, l = t ++ [a] := by
  induction l with
  | nil => intro a h; simp at h
  | cons x xs ih =>
    intro a h
    cases xs with
    | nil =>
      simp only [List.getLast?_singleton, Option.some.injEq] at h
      exact ⟨[], by simp [h]⟩
    | cons y ys =>
      rw [List.getLast?_cons_cons] at h
      obtain ⟨t, ht⟩ := ih a h
      exact ⟨x :: t, by simp [ht]⟩

/-- Claim C2 (confirmed): truncation drops messages from the front one at a
time while fixed overhead + running live sum + reply reserve strictly exceeds
the ceiling (so an exact-ceiling tie is accepted), returns the contiguous
suffix of live messages, and on the spec's example (costs 10/20/30 tokens,
overhead 5, reserve 5, ceiling 40 — scaled to quarter-units) drops the first
two turns and returns exactly the third. -/
theorem C2_truncation_drops_until_fit :
    (∀ (cfg : GenConfig) (s s2 : ReactState) (msgs : List Message),
      sumMatches s →
      get_limited_message_history cfg s = some (s2, msgs) →
      msgs = s.messages.drop s2.msg_start_idx ∧
      s.msg_start_idx ≤ s2.msg_start_idx ∧
      s.sys_tokens + s.intent_tokens + (s.messages_tokens_list.drop s2.msg_start_idx).sum
          + 4 * cfg.max_tokens ≤ 4 * cfg.context_length ∧
      (∀ j, s.msg_start_idx ≤ j → j < s2.msg_start_idx →
        4 * cfg.context_length < s.sys_tokens + s.intent_tokens +
          (s.messages_tokens_list.drop j).sum + 4 * cfg.max_tokens)) ∧
    get_limited_message_history exC2Cfg exC2State =
      some (exC2After, [{ role := lit "user", content := lit "turn3" }]) := by
  constructor
  · intro cfg s s2 msgs hsum hglmh
    unfold get_limited_message_history at hglmh
    rcases htr : truncGo cfg (s.messages_tokens_list.drop s.msg_start_idx) s with _ | s2'
    · rw [htr] at hglmh
      simp at hglmh
    · rw [htr] at hglmh
      simp only [Option.some.injEq, Prod.mk.injEq] at hglmh
      obtain ⟨rfl, hmsgs⟩ := hglmh
      obtain ⟨e1, e2, e3, e4, h5, _, h7, h8, h9⟩ :=
        truncGo_some_spec cfg _ s s2' rfl hsum htr
      refine ⟨by rw [← hmsgs, e3], h5, ?_, h9⟩
      have htot : totalTokens cfg s2' =
          s.sys_tokens + s.intent_tokens +
            (s.messages_tokens_list.drop s2'.msg_start_idx).sum + 4 * cfg.max_tokens := by
        rw [totalTokens, e1, e2, h7]
      rw [← htot]; exact h8
  · decide

/-- Witness for claim C2's general part, instantiated at the spec's example. -/
theorem C2_truncation_drops_until_fit_witness :
    [({ role := lit "user", content := lit "turn3" } : Message)] =
      exC2State.messages.drop exC2After.msg_start_idx :=
  (C2_truncation_drops_until_fit.1 exC2Cfg exC2State exC2After
    [{ role := lit "user", content := lit "turn3" }] (by decide) (by decide)).1

/-- Counterexample for claim C4: with the two-entry table
`[("a","b"), ("c","d")]` and url "ac", the code applies BOTH matching entries
(result "bd"), while the claim's first-match rule (formalized by
`map_url_to_real_specFirstMatch`) stops after the first entry (result "bc"). -/
theorem C4_not_first_match :
    map_url_to_real [(lit "a", lit "b"), (lit "c", lit "d")] (lit "ac") = lit "bd" ∧
    map_url_to_real_specFirstMatch [(lit "a", lit "b"), (lit "c", lit "d")] (lit "ac") =
      lit "bc" ∧
    (lit "bd" : Str) ≠ lit "bc" := by decide

/-- Claim C4 (corrected, amended): each URL-mapping direction applies EVERY
entry whose source string occurs in the current URL, in table order, each
application replacing all occurrences, with later entries seeing the output of
earlier ones (the table acts as the sequential composition of its entries),
rather than stopping at the first matching entry. -/
theorem C4_mapping_applies_all_entries_in_order :
    (∀ (t1 t2 : List (Str × Str)) (u : Str),
        map_url_to_real (t1 ++ t2) u = map_url_to_real t2 (map_url_to_real t1 u)) ∧
    (∀ (t1 t2 : List (Str × Str)) (u : Str),
        map_url_to_local (t1 ++ t2) u = map_url_to_local t2 (map_url_to_local t1 u)) ∧
    (∀ (p q : Str) (t : List (Str × Str)) (u : Str),
        map_url_to_real ((p, q) :: t) u =
          map_url_to_real t (if inStr p u then str_replace u p q else u)) ∧
    (∀ (p q : Str) (t : List (Str × Str)) (u : Str),
        map_url_to_local ((p, q) :: t) u =
          map_url_to_local t (if inStr q u then str_replace u q p else u)) ∧
    map_url_to_real [(lit "a", lit "x")] (lit "aba") = lit "xbx" := by
  refine ⟨?_, ?_, ?_, ?_, by decide⟩
  · intro t1 t2 u; simp [map_url_to_real, List.foldl_append]
  · intro t1 t2 u; simp [map_url_to_local, List.foldl_append]
  · intro p q t u; simp [map_url_to_real]
  · intro p q t u; simp [map_url_to_local]

/-- Counterexample for claim C5: at a state whose last live message is a
tagged observation, `remove_obs` does remove it (the message list shrinks by
one), but the Python function body has no `return` statement, so it returns
`None` (modelled by `none : Option Bool`) — not a boolean indicating that
removal occurred, as the claim states. -/
theorem C5_remove_obs_returns_none_not_bool :
    remove_obs exC5State = some (exC5After, (none : Option Bool)) ∧
    exC5After.messages.length + 1 = exC5State.messages.length := by decide

/-- Claim C5 (corrected, amended): when the last message has role `user` and
its content starts with the observation tag, `remove_obs` removes exactly that
message and decrements the running sum by its content estimate — which, when
the cost list is index-aligned, is exactly that message's recorded (last)
cost; otherwise it is a no-op.  In both cases the Python return value is
`None`, not a boolean. -/
theorem C5_remove_obs_behavior :
    ∀ (s : ReactState) (m : Message),
      s.messages.getLast? = some m →
      costAligned s →
      (((m.role == lit "user") && (lit "OBSERVATION:").isPrefixOf m.content) = true →
        remove_obs s = some
          ({ s with
               messages := s.messages.dropLast,
               messages_tokens_list := s.messages_tokens_list.dropLast,
               messages_token_sum :=
                 s.messages_token_sum - (m.content.length : ℤ) }, none)) ∧
      (((m.role == lit "user") && (lit "OBSERVATION:").isPrefixOf m.content) = false →
        remove_obs s = some (s, none)) ∧
      s.messages_tokens_list.getLastD 0 = (m.content.length : ℤ) := by
  intro s m hml hal
  obtain ⟨t, ht⟩ := list_getLast?_split _ _ hml
  have htokne : s.messages_tokens_list.isEmpty = false := by
    rw [hal, ht]; simp
  refine ⟨?_, ?_, ?_⟩
  · intro hcond
    simp only [remove_obs, hml, hcond, htokne]
    simp
  · intro hcond
    simp only [remove_obs, hml, hcond]
    simp
  · rw [hal, ht]
    simp [List.getLastD_concat]

/-- Witness for claim C5's theorem at a concrete observation-ended state. -/
theorem C5_remove_obs_behavior_witness :
    remove_obs exC5State = some (exC5After, none) ∧
    exC5State.messages_tokens_list.getLastD 0 = 14 := by
  constructor
  · have h := (C5_remove_obs_behavior exC5State
      { role := lit "user", content := lit "OBSERVATION: x" } (by decide) (by decide)).1
      (by decide)
    exact h.trans (by decide)
  · exact ((C5_remove_obs_behavior exC5State
      { role := lit "user", content := lit "OBSERVATION: x" } (by decide) (by decide)).2.2).trans
      (by decide)

/-- Claim C6 (code_bug): the claim (and the spec) say the formatted current
turn contains no recognized placeholder and that the in-code assertion fails
fast whenever one remains.  The code's assertion is
`all([f"{{k}}" not in current for k in keywords])`, and in an f-string `{{k}}`
is the literal three-character text `{k}` — the keyword is never interpolated.
Evaluated at a reachable input (the react template, a URL whose text is
`{observation}`, previous action "None"), the formatted turn still contains
the recognized placeholder `{observation}`, yet the assertion predicate is
true (it passes / does not fire); conversely it only fires on text containing
the literal `{k}`. -/
theorem C6_keyword_assertion_never_fires :
    constructThoughtCurrent [] reactTemplate (lit "{observation}") (lit "None") =
      .ok (lit "\nERROR MESSAGE: None\nURL: {observation}\n") ∧
    inStr (lit "{observation}") (lit "\nERROR MESSAGE: None\nURL: {observation}\n") = true ∧
    keywordAssert reactKeywords (lit "\nERROR MESSAGE: None\nURL: {observation}\n") = true ∧
    keywordAssert reactKeywords (lit "{url} {objective} {observation} {previous_action}") =
      true ∧
    keywordAssert reactKeywords (lit "no placeholder, only a literal {k}") = false := by
  exact ⟨rfl, by decide, by decide, by decide, by decide⟩

/-- Counterexample for claim C7: a state reachable through the public
operations (two `add_message` calls, then a truncation that drops both
messages under a zero ceiling) satisfies the transcript invariant with the
cursor at 2; `remove_obs` then removes the observation lying BEHIND the
cursor and subtracts its cost from a live sum that did not contain it, leaving
the running sum at -15 while the live cost slice sums to 0 — the invariant is
violated right after a transcript-mutating operation. -/
theorem C7_invariant_broken_by_remove_obs_behind_cursor :
    transcriptInv exC7S1 ∧
    get_limited_message_history exC7Cfg exC7S1 = some (exC7S2, []) ∧
    transcriptInv exC7S2 ∧
    remove_obs exC7S2 = some (exC7S3, none) ∧
    ¬ transcriptInv exC7S3 := by decide

/-- Claim C7 (corrected, amended): the transcript invariant — cost list and
message list index-aligned, running token sum equal to the sum of the cost
entries from the cursor onward — is preserved by `add_message` and by a
successfully returning `get_limited_message_history` whenever the cursor is
within bounds, and by `remove_obs` whenever the cursor has not advanced past
the last message; without the cursor-bound proviso `remove_obs` can violate it
(see the counterexample). -/
theorem C7_transcript_invariant_preservation :
    (∀ (s : ReactState) (msg role : Str),
        transcriptInv s → s.msg_start_idx ≤ s.messages.length →
        transcriptInv (add_message s msg role)) ∧
    (∀ (cfg : GenConfig) (s s2 : ReactState) (msgs : List Message),
        transcriptInv s → get_limited_message_history cfg s = some (s2, msgs) →
        transcriptInv s2) ∧
    (∀ (s s2 : ReactState) (r : Option Bool),
        transcriptInv s → s.msg_start_idx < s.messages.length →
        remove_obs s = some (s2, r) → transcriptInv s2) := by
  refine ⟨?_, ?_, ?_⟩
  · rintro s msg role ⟨hal, hsum⟩ hidx
    have hal' : s.messages_tokens_list =
        s.messages.map (fun m => (m.content.length : ℤ)) := hal
    have hsum' : s.messages_token_sum =
        (s.messages_tokens_list.drop s.msg_start_idx).sum := hsum
    constructor
    · simp [costAligned, add_message, hal']
    · have hlen : s.msg_start_idx ≤ s.messages_tokens_list.length := by
        rw [hal']; simpa using hidx
      simp only [sumMatches, add_message]
      rw [List.drop_append_of_le_length hlen, List.sum_append]
      simp [hsum']
  · rintro cfg s s2 msgs ⟨hal, hsum⟩ hglmh
    unfold get_limited_message_history at hglmh
    rcases htr : truncGo cfg (s.messages_tokens_list.drop s.msg_start_idx) s with _ | s2'
    · rw [htr] at hglmh
      simp at hglmh
    · rw [htr] at hglmh
      simp only [Option.some.injEq, Prod.mk.injEq] at hglmh
      obtain ⟨rfl, hmsgs⟩ := hglmh
      obtain ⟨e1, e2, e3, e4, _, _, h7, _, _⟩ :=
        truncGo_some_spec cfg _ s s2' rfl hsum htr
      constructor
      · show s2'.messages_tokens_list = _
        rw [e4, e3]
        exact hal
      · show s2'.messages_token_sum = _
        rw [h7, e4]
  · rintro s s2 r ⟨hal, hsum⟩ hidx hro
    rcases hml : s.messages.getLast? with _ | m
    · rw [List.getLast?_eq_none_iff] at hml
      rw [hml] at hidx
      simp at hidx
    · obtain ⟨t, ht⟩ := list_getLast?_split _ _ hml
      have htokne : s.messages_tokens_list.isEmpty = false := by
        rw [hal, ht]; simp
      by_cases hcond :
          ((m.role == lit "user") && (lit "OBSERVATION:").isPrefixOf m.content) = true
      · simp only [remove_obs, hml, hcond, htokne] at hro
        simp only [Bool.false_eq_true, if_false, if_true, Option.some.injEq,
          Prod.mk.injEq] at hro
        obtain ⟨hs2, -⟩ := hro
        have hmap : s.messages_tokens_list =
            t.map (fun mm => (mm.content.length : ℤ)) ++ [(m.content.length : ℤ)] := by
          rw [hal, ht]; simp
        have hidx' : s.msg_start_idx ≤ t.length := by
          rw [ht] at hidx; simp at hidx; omega
        have hidx'' : s.msg_start_idx ≤ (t.map (fun mm => (mm.content.length : ℤ))).length := by
          simpa using hidx'
        subst hs2
        constructor
        · show s.messages_tokens_list.dropLast = _
          rw [hmap, ht]
          simp [List.dropLast_concat]
        · show s.messages_token_sum - (m.content.length : ℤ) = _
          have hsum' : s.messages_token_sum =
              ((t.map (fun mm => (mm.content.length : ℤ))).drop s.msg_start_idx).sum
                + (m.content.length : ℤ) := by
            rw [sumMatches] at hsum
            rw [hsum, hmap, List.drop_append_of_le_length hidx'', List.sum_append]
            simp
          rw [hmap]
          simp [List.dropLast_concat, hsum']
      · simp only [remove_obs, hml, hcond] at hro
        simp only [Bool.false_eq_true, if_false, Option.some.injEq, Prod.mk.injEq] at hro
        obtain ⟨hs2, -⟩ := hro
        rw [← hs2]
        exact ⟨hal, hsum⟩

/-- Witness for claim C7's theorem: all three preservation statements applied
at concrete in-bounds states. -/
theorem C7_transcript_invariant_preservation_witness :
    transcriptInv (add_message exC5State (lit "hi") (lit "assistant")) ∧
    transcriptInv exC7S2 ∧
    transcriptInv exC5After := by
  refine ⟨?_, ?_, ?_⟩
  · exact C7_transcript_invariant_preservation.1 exC5State (lit "hi") (lit "assistant")
      (by decide) (by decide)
  · exact C7_transcript_invariant_preservation.2.1 exC7Cfg exC7S1 exC7S2 []
      (by decide) (by decide)
  · exact C7_transcript_invariant_preservation.2.2 exC5State exC5After none
      (by decide) (by decide) (by decide)

theorem isPrefixOf_true_iff {l1 l2 : Str} : l1.isPrefixOf l2 = true ↔ l1 <+: l2 := by
  exact List.isPrefixOf_iff_prefix

theorem replAuxF_fuel_irrel (pat rep : Str) :
    ∀ (fuel1 : ℕ) (s : Str) (fuel2 : ℕ), s.length ≤ fuel1 → s.length ≤ fuel2 →
      replAuxF pat rep fuel1 s = replAuxF pat rep fuel2 s := by
  intro fuel1
  induction fuel1 with
  | zero =>
    intro s fuel2 h1 h2
    obtain rfl : s = [] := List.length_eq_zero.mp (Nat.le_zero.mp h1)
    cases fuel2 <;> rfl
  | succ f ih =>
    intro s fuel2 h1 h2
    cases s with
    | nil => cases fuel2 <;> rfl
    | cons c rest =>
      cases fuel2 with
      | zero => simp at h2
      | succ f2 =>
        simp only [replAuxF]
        by_cases hp : pat.isPrefixOf (c :: rest) = true
        · rw [if_pos hp, if_pos hp]
          congr 1
          apply ih
          · simp only [List.length_drop]
            simp only [List.length_cons] at h1
            omega
          · simp only [List.length_drop]
            simp only [List.length_cons] at h2
            omega
        · rw [if_neg hp, if_neg hp]
          congr 1
          apply ih
          · simp only [List.length_cons] at h1; omega
          · simp only [List.length_cons] at h2; omega

theorem str_replace_nil (pat rep : Str) (hne : pat ≠ []) :
    str_replace ([] : Str) pat rep = [] := by
  cases pat with
  | nil => exact absurd rfl hne
  | cons p ps => rfl

theorem str_replace_head_match (s pat rep : Str) (hne : pat ≠ [])
    (hp : pat.isPrefixOf s = true) :
    str_replace s pat rep = rep ++ str_replace (s.drop pat.length) pat rep := by
  cases pat with
  | nil => exact absurd rfl hne
  | cons p ps =>
    cases s with
    | nil => simp [List.isPrefixOf] at hp
    | cons c rest =>
      show replAuxF (p :: ps) rep (rest.length + 1) (c :: rest) = _
      simp only [replAuxF, hp, if_true]
      congr 1
      have hdrop : (c :: rest).drop (p :: ps).length = rest.drop ps.length := by simp
      rw [hdrop]
      show _ = replAuxF (p :: ps) rep (rest.drop ps.length).length (rest.drop ps.length)
      apply replAuxF_fuel_irrel
      · simp only [List.length_drop]; omega
      · exact Nat.le_refl _

theorem str_replace_head_miss (pat rep : Str) (c : Char) (rest : Str) (hne : pat ≠ [])
    (hp : pat.isPrefixOf (c :: rest) = false) :
    str_replace (c :: rest) pat rep = c :: str_replace rest pat rep := by
  cases pat with
  | nil => exact absurd rfl hne
  | cons p ps =>
    show replAuxF (p :: ps) rep (rest.length + 1) (c :: rest) = _
    simp only [replAuxF, hp, Bool.false_eq_true, if_false]
    rfl

theorem str_replace_no_occurrence (pat rep : Str) (hne : pat ≠ []) :
    ∀ s, inStr pat s = false → str_replace s pat rep = s := by
  intro s
  induction s with
  | nil =>
    intro h
    exact str_replace_nil pat rep hne
  | cons c rest ih =>
    intro h
    simp only [inStr, Bool.or_eq_false_iff] at h
    obtain ⟨h1, h2⟩ := h
    rw [str_replace_head_miss pat rep c rest hne h1, ih h2]

theorem str_replace_roundtrip (l r : Str) (hl : l ≠ []) (hr : r ≠ []) :
    ∀ (n : ℕ) (u : Str), u.length ≤ n → (∀ ch ∈ r, ch ∉ u) →
      str_replace (str_replace u l r) r l = u := by
  intro n
  induction n with
  | zero =>
    intro u hu _
    obtain rfl : u = [] := List.length_eq_zero.mp (Nat.le_zero.mp hu)
    rw [str_replace_nil l r hl, str_replace_nil r l hr]
  | succ n ih =>
    intro u hu hch
    by_cases hp : l.isPrefixOf u = true
    · obtain ⟨u', rfl⟩ : ∃ u', l ++ u' = u := isPrefixOf_true_iff.mp hp
      rw [str_replace_head_match (l ++ u') l r hl hp, List.drop_left]
      have hp2 : r.isPrefixOf (r ++ str_replace u' l r) = true :=
        isPrefixOf_true_iff.mpr ⟨_, rfl⟩
      rw [str_replace_head_match _ r l hr hp2, List.drop_left]
      congr 1
      apply ih
      · have hll : 1 ≤ l.length := by
          cases l with
          | nil => exact absurd rfl hl
          | cons x xs => simp
        simp only [List.length_append] at hu
        omega
      · intro ch hchr
        have := hch ch hchr
        simp only [List.mem_append] at this
        exact fun hmem => this (Or.inr hmem)
    · cases u with
      | nil => rw [str_replace_nil l r hl, str_replace_nil r l hr]
      | cons c rest =>
        have hp' : l.isPrefixOf (c :: rest) = false := by
          cases h2 : l.isPrefixOf (c :: rest) with
          | false => rfl
          | true => exact absurd h2 hp
        rw [str_replace_head_miss l r c rest hl hp']
        have hrp : r.isPrefixOf (c :: str_replace rest l r) = false := by
          cases r with
          | nil => exact absurd rfl hr
          | cons r0 rs =>
            have hr0 : r0 ∉ (c :: rest) := hch r0 (by simp)
            have hne0 : ¬ r0 = c := by
              intro h
              exact hr0 (by simp [h])
            simp [List.isPrefixOf, hne0]
        rw [str_replace_head_miss r l c _ hr hrp]
        congr 1
        apply ih
        · simp only [List.length_cons] at hu; omega
        · intro ch hchr
          have := hch ch hchr
          simp only [List.mem_cons] at this
          exact fun hmem => this (Or.inr hmem)

theorem map_url_to_real_single (a b u : Str) (ha : a ≠ []) :
    map_url_to_real [(a, b)] u = str_replace u a b := by
  show (if inStr a u then str_replace u a b else u) = _
  by_cases h : inStr a u = true
  · rw [if_pos h]
  · rw [if_neg h]
    rw [str_replace_no_occurrence a b ha u (by simpa using h)]

theorem map_url_to_local_single (a b u : Str) (hb : b ≠ []) :
    map_url_to_local [(a, b)] u = str_replace u b a := by
  show (if inStr b u then str_replace u b a else u) = _
  by_cases h : inStr b u = true
  · rw [if_pos h]
  · rw [if_neg h]
    rw [str_replace_no_occurrence b a hb u (by simpa using h)]

/-- Counterexample for claim C8: the round-trip through a single mapping entry
fails as soon as the input URL contains the entry's real string.  With the
entry ("a", "b") and URL "b", the real direction leaves the URL unchanged but
the local direction rewrites the pre-existing "b" to "a". -/
theorem C8_roundtrip_fails_when_real_occurs :
    map_url_to_local [(lit "a", lit "b")]
        (map_url_to_real [(lit "a", lit "b")] (lit "b")) = lit "a" ∧
    (lit "a" : Str) ≠ lit "b" := by decide

/-- Claim C8 (corrected, amended): for a single mapping entry with nonempty
local and real strings, the round-trip `real_to_local(local_to_real(u)) = u`
holds whenever no character of the real string occurs in `u` (so every
occurrence of the real string in the rewritten URL stems from a replacement);
without that proviso the round-trip can fail (see the counterexample). -/
theorem C8_roundtrip_single_entry :
    ∀ (l r u : Str), l ≠ [] → r ≠ [] → (∀ ch ∈ r, ch ∉ u) →
      map_url_to_local [(l, r)] (map_url_to_real [(l, r)] u) = u := by
  intro l r u hl hr hch
  rw [map_url_to_real_single l r u hl, map_url_to_local_single l r _ hr]
  exact str_replace_roundtrip l r hl hr u.length u (Nat.le_refl _) hch

/-- Witness for claim C8's theorem: entry ("a","b") on the URL "xay". -/
theorem C8_roundtrip_single_entry_witness :
    map_url_to_local [(lit "a", lit "b")]
        (map_url_to_real [(lit "a", lit "b")] (lit "xay")) = lit "xay" :=
  C8_roundtrip_single_entry (lit "a") (lit "b") (lit "xay")
    (by decide) (by decide) (by decide)

theorem closeScan_complete (d : Str) (hd : d ≠ []) :
    ∀ (mid rest' : Str),
      (∀ j, j < mid.length → d.isPrefixOf ((mid ++ d ++ rest').drop j) = false) →
      '\n' ∉ mid →
      closeScan d (mid ++ d ++ rest') = some mid := by
  intro mid
  induction mid with
  | nil =>
    intro rest' _ _
    cases d with
    | nil => exact absurd rfl hd
    | cons p ps =>
      have hpre : (p :: ps).isPrefixOf (p :: (ps ++ rest')) = true :=
        isPrefixOf_true_iff.mpr ⟨rest', by simp⟩
      show closeScan (p :: ps) (p :: (ps ++ rest')) = some []
      simp only [closeScan, hpre, if_true]
  | cons c mid' ih =>
    intro rest' hocc hnl
    have h0 : d.isPrefixOf (c :: (mid' ++ d ++ rest')) = false := by
      have := hocc 0 (by simp)
      simpa using this
    have hnlc : ¬ c = '\n' := by
      intro h
      exact hnl (by simp [h])
    show closeScan d (c :: (mid' ++ d ++ rest')) = some (c :: mid')
    simp only [closeScan, h0, Bool.false_eq_true, if_false, hnlc]
    rw [ih rest' (fun j hj => by
      have := hocc (j + 1) (by simpa using Nat.succ_lt_succ hj)
      simpa using this) (fun h => hnl (by simp [h]))]
    rfl

theorem searchScan_first (d : Str) (hd : d ≠ []) :
    ∀ (pre t cs : Str),
      (∀ i, i < pre.length → d.isPrefixOf ((pre ++ t).drop i) = false) →
      d.isPrefixOf t = true →
      closeScan d (t.drop d.length) = some cs →
      searchScan d (pre ++ t) = some cs := by
  intro pre
  induction pre with
  | nil =>
    intro t cs _ hp hclose
    cases t with
    | nil =>
      cases d with
      | nil => exact absurd rfl hd
      | cons p ps => simp [List.isPrefixOf] at hp
    | cons c rest =>
      show searchScan d (c :: rest) = some cs
      simp only [searchScan, hp, if_true, hclose]
  | cons x pre' ih =>
    intro t cs hocc hp hclose
    have h0 : d.isPrefixOf (x :: (pre' ++ t)) = false := by
      have := hocc 0 (by simp)
      simpa using this
    show searchScan d (x :: (pre' ++ t)) = some cs
    simp only [searchScan, h0, Bool.false_eq_true, if_false]
    exact ih t cs (fun i hi => by
      have := hocc (i + 1) (by simpa using Nat.succ_lt_succ hi)
      simpa using this) hp hclose

theorem closeScan_sound (d : Str) (hd : d ≠ []) :
    ∀ (s cs : Str), closeScan d s = some cs → ∃ rest, s = cs ++ d ++ rest := by
  intro s
  induction s with
  | nil =>
    intro cs h
    cases d with
    | nil => exact absurd rfl hd
    | cons p ps => simp [closeScan, List.isPrefixOf] at h
  | cons c rest ih =>
    intro cs h
    simp only [closeScan] at h
    by_cases hp : d.isPrefixOf (c :: rest) = true
    · rw [if_pos hp] at h
      obtain rfl : cs = [] := by simpa using h.symm
      obtain ⟨t, ht⟩ := isPrefixOf_true_iff.mp hp
      exact ⟨t, by simp [← ht]⟩
    · rw [if_neg hp] at h
      by_cases hnl : c = '\n'
      · rw [if_pos hnl] at h
        simp at h
      · rw [if_neg hnl] at h
        cases hcr : closeScan d rest with
        | none => rw [hcr] at h; simp at h
        | some cs' =>
          rw [hcr] at h
          simp only [Option.map_some', Option.some.injEq] at h
          obtain ⟨r', hr'⟩ := ih cs' hcr
          exact ⟨r', by simp [← h, hr']⟩

theorem searchScan_sound (d : Str) (hd : d ≠ []) :
    ∀ (resp cs : Str), searchScan d resp = some cs →
      ∃ pre post, resp = pre ++ d ++ cs ++ d ++ post := by
  intro resp
  induction resp with
  | nil =>
    intro cs h
    cases d with
    | nil => exact absurd rfl hd
    | cons p ps => simp [searchScan, List.isPrefixOf] at h
  | cons c rest ih =>
    intro cs h
    simp only [searchScan] at h
    by_cases hp : d.isPrefixOf (c :: rest) = true
    · rw [if_pos hp] at h
      cases hcl : closeScan d ((c :: rest).drop d.length) with
      | none =>
        rw [hcl] at h
        obtain ⟨pre', post', hdec⟩ := ih cs h
        exact ⟨c :: pre', post', by simp [hdec]⟩
      | some content =>
        rw [hcl] at h
        have hcc : content = cs := by simpa using h
        subst hcc
        obtain ⟨t, ht⟩ := isPrefixOf_true_iff.mp hp
        have htt : t = (c :: rest).drop d.length := by
          rw [← ht, List.drop_left]
        obtain ⟨r', hr'⟩ := closeScan_sound d hd _ content hcl
        refine ⟨[], r', ?_⟩
        have ht2 : t = content ++ d ++ r' := by rw [htt]; exact hr'
        rw [← ht, ht2]
        simp [List.append_assoc]
    · rw [if_neg hp] at h
      obtain ⟨pre', post', hdec⟩ := ih cs h
      exact ⟨c :: pre', post', by simp [hdec]⟩

theorem occCount_cons_ge (d : Str) (c : Char) (t : Str) :
    occCount d t ≤ occCount d (c :: t) := by
  simp only [occCount]
  split <;> omega

theorem occCount_append_ge (d : Str) (a t : Str) :
    occCount d t ≤ occCount d (a ++ t) := by
  induction a with
  | nil => simp
  | cons x a' ih => exact le_trans ih (occCount_cons_ge d x (a' ++ t))

theorem occCount_pos_of_starts (d : Str) (hd : d ≠ []) (t : Str)
    (hp : d.isPrefixOf t = true) : 1 ≤ occCount d t := by
  cases t with
  | nil =>
    cases d with
    | nil => exact absurd rfl hd
    | cons p ps => simp [List.isPrefixOf] at hp
  | cons c rest =>
    simp only [occCount, hp, if_true]
    omega

theorem occCount_two (d : Str) (hd : d ≠ []) (cs post : Str) :
    2 ≤ occCount d (d ++ cs ++ d ++ post) := by
  cases d with
  | nil => exact absurd rfl hd
  | cons p ps =>
    have hassoc : (p :: ps) ++ cs ++ (p :: ps) ++ post =
        p :: (ps ++ (cs ++ ((p :: ps) ++ post))) := by
      simp [List.append_assoc]
    rw [hassoc]
    have hpre : (p :: ps).isPrefixOf (p :: (ps ++ (cs ++ ((p :: ps) ++ post)))) = true :=
      isPrefixOf_true_iff.mpr ⟨cs ++ ((p :: ps) ++ post), by simp⟩
    simp only [occCount, hpre, if_true]
    have h1 : 1 ≤ occCount (p :: ps) ((p :: ps) ++ post) :=
      occCount_pos_of_starts (p :: ps) hd ((p :: ps) ++ post)
        (isPrefixOf_true_iff.mpr ⟨post, rfl⟩)
    have h2 : occCount (p :: ps) ((p :: ps) ++ post) ≤
        occCount (p :: ps) (cs ++ ((p :: ps) ++ post)) :=
      occCount_append_ge (p :: ps) cs _
    have h3 : occCount (p :: ps) (cs ++ ((p :: ps) ++ post)) ≤
        occCount (p :: ps) (ps ++ (cs ++ ((p :: ps) ++ post))) :=
      occCount_append_ge (p :: ps) ps _
    omega

/-- Counterexample for claim C3: the reply "`a‖b`" (backtick, a, newline, b,
backtick — written with the delimiter escaped) contains two occurrences of the
configured backtick delimiter, yet extraction raises a ParsingError: the lazy
`(.*?)` of the compiled pattern cannot cross the newline, so no match exists
and the claim's "raises exactly when fewer than two occurrences exist" fails. -/
theorem C3_two_occurrences_still_raises :
    occCount reactActionSplitter (lit "\x60a\nb\x60") = 2 ∧
    extract_action [] reactActionSplitter (lit "\x60a\nb\x60") = none := by decide

/-- Claim C3 (corrected, amended): `extract_action` returns the (locally
URL-remapped) substring strictly between the first and second occurrences of
the configured delimiter PROVIDED no newline lies strictly between them (the
regex `.` does not match newlines); and it raises a ParsingError whenever
fewer than two delimiter occurrences exist (though, per the counterexample,
not only then: two occurrences separated by a newline also raise unless a
later same-line pair matches).  The first-occurrence hypotheses say the
delimiter matches nowhere inside the leading segment and nowhere inside the
in-between segment. -/
theorem C3_extract_action_delimiters :
    (∀ (table : List (Str × Str)) (d pre mid post : Str), d ≠ [] →
      (∀ i, i < pre.length →
        d.isPrefixOf ((pre ++ d ++ mid ++ d ++ post).drop i) = false) →
      (∀ j, j < mid.length → d.isPrefixOf ((mid ++ d ++ post).drop j) = false) →
      '\n' ∉ mid →
      extract_action table d (pre ++ d ++ mid ++ d ++ post) =
        some (map_url_to_local table mid)) ∧
    (∀ (table : List (Str × Str)) (d resp : Str), d ≠ [] → occCount d resp < 2 →
      extract_action table d resp = none) := by
  constructor
  · intro table d pre mid post hd hfirst hsecond hnl
    have hassoc : pre ++ d ++ mid ++ d ++ post = pre ++ (d ++ (mid ++ d ++ post)) := by
      simp [List.append_assoc]
    have hsearch : searchScan d (pre ++ d ++ mid ++ d ++ post) = some mid := by
      rw [hassoc]
      apply searchScan_first d hd pre (d ++ (mid ++ d ++ post)) mid
      · intro i hi
        have := hfirst i hi
        rw [hassoc] at this
        exact this
      · exact isPrefixOf_true_iff.mpr ⟨_, rfl⟩
      · rw [List.drop_left]
        exact closeScan_complete d hd mid post hsecond hnl
    unfold extract_action react_extract_action_raw
    rw [hsearch]
  · intro table d resp hd hocc
    unfold extract_action react_extract_action_raw
    cases hs : searchScan d resp with
    | none => rfl
    | some cs =>
      exfalso
      obtain ⟨pre, post, hdecomp⟩ := searchScan_sound d hd resp cs hs
      have hassoc : pre ++ d ++ cs ++ d ++ post = pre ++ (d ++ cs ++ d ++ post) := by
        simp [List.append_assoc]
      have h2 : 2 ≤ occCount d resp := by
        rw [hdecomp, hassoc]
        exact le_trans (occCount_two d hd cs post) (occCount_append_ge d pre _)
      omega

/-- Witness for claim C3's theorem: the spec's own example, reply
"Action: `stop [$279.49]`" with the configured backtick delimiter and an
empty mapping table; and a reply with a single delimiter occurrence raising. -/
theorem C3_extract_action_delimiters_witness :
    extract_action [] reactActionSplitter
        (lit "Action: " ++ reactActionSplitter ++ lit "stop [$279.49]" ++
          reactActionSplitter ++ lit "") =
      some (map_url_to_local [] (lit "stop [$279.49]")) ∧
    extract_action [] reactActionSplitter (lit "no delimiters here") = none := by
  constructor
  · exact C3_extract_action_delimiters.1 [] reactActionSplitter (lit "Action: ")
      (lit "stop [$279.49]") (lit "") (by decide) (by decide) (by decide) (by decide)
  · exact C3_extract_action_delimiters.2 [] reactActionSplitter
      (lit "no delimiters here") (by decide) (by decide)
